import Mathlib

/-!
Verification development for the code-languages plugin
(language ordering and usage-frequency engine).

The definitions below are a shallow embedding of the TypeScript source
(`src/index.ts`, latest iteration): pure helper functions become Lean
functions, the handler bodies become explicit state-passing functions,
JavaScript objects (string-keyed maps with insertion order) become
association lists, and JavaScript's stable `Array.prototype.sort` becomes
`List.mergeSort` with the comparator translated to a boolean `le` relation.
JavaScript string comparison (`<` on strings, used by the default sort and
by the date-key comparison) is lexicographic on UTF-16 code units; it is
embedded as `lexLe` over the UTF-16 code-unit sequence of a string.
`toLowerCase` is modelled character-wise by `Char.toLower` (ASCII range),
which agrees with JavaScript on the ASCII language identifiers the plugin
deals with.
-/

/-- The set of characters `String.prototype.trim` removes: JavaScript
WhiteSpace and LineTerminator code points. -/
def isJsWhitespace (c : Char) : Bool :=
  c = ' ' || c = '\t' || c = '\n' || c = '\r' ||
  c.toNat = 11 || c.toNat = 12 || c.toNat = 0xA0 || c.toNat = 0x1680 ||
  (0x2000 ≤ c.toNat && c.toNat ≤ 0x200A) || c.toNat = 0x2028 || c.toNat = 0x2029 ||
  c.toNat = 0x202F || c.toNat = 0x205F || c.toNat = 0x3000 || c.toNat = 0xFEFF

/-- Embedding of `part.trim()`: drop surrounding JavaScript whitespace. -/
def jsTrim (s : String) : String :=
  ⟨((s.data.dropWhile isJsWhitespace).reverse.dropWhile isJsWhitespace).reverse⟩

/-- First pass of `escapeHtml`: `html.replace(/&/g, "&amp;")`. -/
def replaceAmp (s : String) : String :=
  ⟨(s.data.map (fun c => if c = '&' then "&amp;".data else [c])).flatten⟩

/-- Second pass of `escapeHtml`: `.replace(/</g, "&lt;")`. -/
def replaceLt (s : String) : String :=
  ⟨(s.data.map (fun c => if c = '<' then "&lt;".data else [c])).flatten⟩

/-- Embedding of the source's `escapeHtml` (latest iteration): escape `&`
then `<`; the empty string is returned unchanged (the `if (!html)` guard). -/
def escapeHtml (html : String) : String :=
  if html = "" then html else replaceLt (replaceAmp html)

/-- Embedding of ``trimmed.replace(/`| /g, '_')``: every backtick
(code point 96) and every space character is replaced by an underscore.
Note that this matches only the space character U+0020, not other
whitespace such as tabs. -/
def replaceBacktickSpace (s : String) : String :=
  ⟨s.data.map (fun c => if c.toNat = 96 || c = ' ' then '_' else c)⟩

/-- Splitting a character sequence at commas, with JavaScript
`String.prototype.split(',')` semantics: empty segments are kept and the
empty string yields a single empty segment. -/
def splitComma : List Char → List (List Char)
  | [] => [[]]
  | c :: rest =>
    if c = ',' then [] :: splitComma rest
    else
      match splitComma rest with
      | [] => [[c]]
      | s :: ss => (c :: s) :: ss

/-- Embedding of `parseLanguagesInput` (latest iteration): split on commas,
keep the first 300 segments, canonicalize each segment, drop empty results. -/
def parseLanguagesInput (input : String) : List String :=
  if input = "" then []
  else
    ((((splitComma input.data).map (fun l => (⟨l⟩ : String))).take 300).map
      (fun part => escapeHtml (replaceBacktickSpace (jsTrim part)))).filter
      (fun lang => decide (0 < lang.length))

/-- UTF-16 code units of a character, as JavaScript strings store them. -/
def utf16Units (c : Char) : List Nat :=
  if c.toNat < 0x10000 then [c.toNat]
  else [0xD800 + (c.toNat - 0x10000) / 0x400, 0xDC00 + (c.toNat - 0x10000) % 0x400]

/-- The UTF-16 code-unit sequence of a string (the representation on which
JavaScript compares strings and measures `String.prototype.length`). -/
def jsKey (s : String) : List Nat :=
  (s.data.map utf16Units).flatten

/-- JavaScript `String.prototype.length` (UTF-16 code units). -/
def len16 (s : String) : Nat :=
  (jsKey s).length

/-- Lexicographic `≤` on code-unit sequences. -/
def lexLe : List Nat → List Nat → Bool
  | [], _ => true
  | _ :: _, [] => false
  | a :: as, b :: bs => if a < b then true else if b < a then false else lexLe as bs

/-- Lexicographic `<` on code-unit sequences. -/
def lexLt : List Nat → List Nat → Bool
  | [], [] => false
  | [], _ :: _ => true
  | _ :: _, [] => false
  | a :: as, b :: bs => if a < b then true else if b < a then false else lexLt as bs

/-- JavaScript string `≤` (UTF-16 code-unit lexicographic order); for strings
without astral-plane characters this coincides with code-point order.  The
comparator-less `Array.prototype.sort` orders strings this way. -/
def jsLeStr (a b : String) : Bool :=
  lexLe (jsKey a) (jsKey b)

/-- JavaScript string `<`, used by the source on date keys
(`date < cutoffDateString`). -/
def jsLtStr (a b : String) : Bool :=
  lexLt (jsKey a) (jsKey b)

/-- Character-wise lowercase, modelling `toLowerCase` on the ASCII range. -/
def toLowerAscii (s : String) : String :=
  ⟨s.data.map Char.toLower⟩

/-- `needle` occurs as a contiguous substring of `haystack`
(JavaScript `String.prototype.includes`). -/
def containsSub (needle : List Char) : List Char → Bool
  | [] => needle.isEmpty
  | c :: rest => needle.isPrefixOf (c :: rest) || containsSub needle rest

/-- Sorting mode of the plugin configuration (`'custom' | 'frequency'`). -/
inductive SortMode where
  | custom
  | frequency
deriving DecidableEq, Repr

/-- The persisted `Config` record.  The raw list-valued fields are the
comma-separated strings the user types; the numeric fields are in their
documented domains (`frequencyTopCount` in 1..15, `frequencyDaysRange`
in 1..90), hence modelled as `Nat`. -/
structure Config where
  sortMode : SortMode
  customOrder : String
  frequencyTopCount : Nat
  frequencyDaysRange : Nat
  otherCustomLanguages : String
  excludedLanguages : String
deriving DecidableEq, Repr

/-- Per-language statistics record (`LanguageStats`): the per-day counters
(`dates`, a string-keyed object modelled as an insertion-ordered
association list) and the derived total. -/
structure LanguageStats where
  totalCount : Int
  dates : List (String × Int)
deriving DecidableEq, Repr

/-- The persisted `Statistics` record. `languages` is a string-keyed object,
modelled as an insertion-ordered association list (JavaScript object key
order for non-numeric string keys). -/
structure Statistics where
  frequencyOrder : List String
  languages : List (String × LanguageStats)
deriving DecidableEq, Repr

/-- First-match lookup in an association list (JavaScript property read;
keys of an actual object are unique, so only the first match matters). -/
def getVal {β : Type} : List (String × β) → String → Option β
  | [], _ => none
  | (k', v) :: rest, k => if k' = k then some v else getVal rest k

/-- Update the value at a key in place, or append the binding if the key is
absent (JavaScript property write: a fresh key goes to the end of the
insertion order). -/
def setVal {β : Type} : List (String × β) → String → β → List (String × β)
  | [], k, v => [(k, v)]
  | (k', v') :: rest, k, v =>
    if k' = k then (k, v) :: rest else (k', v') :: setVal rest k v

/-- Apply a function to the value at a key (first occurrence), leaving the
list unchanged if the key is absent. -/
def updVal {β : Type} : List (String × β) → String → (β → β) → List (String × β)
  | [], _, _ => []
  | (k', v) :: rest, k, f =>
    if k' = k then (k', f v) :: rest else (k', v) :: updVal rest k f

/-- Sum of the values of a per-day counter object (the accumulation done by
the `for (const date in languageStats.dates)` loop). -/
def sumVals (m : List (String × Int)) : Int :=
  (m.map Prod.snd).sum

/-- `totalCount` of a language as read off a `languages` object, 0 when the
language is not tracked. -/
def totalOf (m : List (String × LanguageStats)) (lang : String) : Int :=
  ((getVal m lang).map LanguageStats.totalCount).getD 0

/-- The ranking recomputation used by `updateFrequencyOrder`:
`Object.keys(languages)` (insertion order) stably sorted by descending
`totalCount` (comparator `(a, b) => total[b] - total[a]`). -/
def freqOrderKeys (m : List (String × LanguageStats)) : List String :=
  (m.map Prod.fst).mergeSort (fun a b => decide (totalOf m b ≤ totalOf m a))

/-- Embedding of `updateFrequencyOrder`: replace `frequencyOrder` with the
ranking recomputed from the current `languages` object. -/
def updateFrequencyOrder (stats : Statistics) : Statistics :=
  { stats with frequencyOrder := freqOrderKeys stats.languages }

/-- Left zero-padding to two digits (`toISOString` date fields). -/
def pad2 (n : Nat) : String :=
  if n < 10 then "0" ++ toString n else toString n

/-- Left zero-padding to four digits (`toISOString` year field; the model
assumes years in 0..9999, which covers every reachable date). -/
def pad4 (n : Nat) : String :=
  if n < 10 then "000" ++ toString n
  else if n < 100 then "00" ++ toString n
  else if n < 1000 then "0" ++ toString n
  else toString n

/-- Civil date (year, month, day) of a day number counted from 1970-01-01
(proleptic Gregorian calendar, as used by `Date.prototype.toISOString`). -/
def civilFromDays (z0 : Int) : Int × Nat × Nat :=
  let z := z0 + 719468
  let era := z.fdiv 146097
  let doe := (z - era * 146097).toNat
  let yoe := (doe - doe / 1460 + doe / 36524 - doe / 146096) / 365
  let y := (yoe : Int) + era * 400
  let doy := doe - (365 * yoe + yoe / 4 - yoe / 100)
  let mp := (5 * doy + 2) / 153
  let d := doy - (153 * mp + 2) / 5 + 1
  let m := if mp < 10 then mp + 3 else mp - 9
  (if m ≤ 2 then y + 1 else y, m, d)

/-- The `YYYY-MM-DD` part of `new Date(ms).toISOString()` (UTC calendar
day of a millisecond timestamp). -/
def toISODateString (ms : Int) : String :=
  let p := civilFromDays (ms.fdiv 86400000)
  pad4 p.1.toNat ++ "-" ++ pad2 p.2.1 ++ "-" ++ pad2 p.2.2

/-- Embedding of `getCurrentDateString` with the current time passed
explicitly as a millisecond timestamp. -/
def getCurrentDateString (nowMs : Int) : String :=
  toISODateString nowMs

/-- The expiry cutoff day used by `cleanupExpiredStatistics`:
`new Date(now - frequencyDaysRange * 24*60*60*1000).toISOString()`, date
part. -/
def cutoffString (config : Config) (nowMs : Int) : String :=
  toISODateString (nowMs - (config.frequencyDaysRange : Int) * 86400000)

/-- The per-language body of the cleanup loop: drop day entries whose key
is `<` the cutoff string and recompute `totalCount` as the sum of the
remaining entries. -/
def pruneEntry (cutoff : String) (st : LanguageStats) : LanguageStats :=
  let kept := st.dates.filter (fun q => !jsLtStr q.1 cutoff)
  { totalCount := sumVals kept, dates := kept }

/-- Embedding of `cleanupExpiredStatistics`: prune every language, remove
languages whose recomputed total is zero, then recompute `frequencyOrder`
once from the surviving languages. -/
def cleanupExpiredStatistics (config : Config) (nowMs : Int) (stats : Statistics) : Statistics :=
  let cutoffDateString := cutoffString config nowMs
  let pruned := stats.languages.map (fun p => (p.1, pruneEntry cutoffDateString p.2))
  let survivors := pruned.filter (fun p => decide (p.2.totalCount ≠ 0))
  updateFrequencyOrder { stats with languages := survivors }

/-- The recording block of `languageChange` (the spec's `recordSelection`):
for a non-blank language, ensure a record exists (a fresh key is appended),
increment today's per-day counter (created at 1 if absent) and
`totalCount`, and recompute `frequencyOrder`.  The raw `language` string is
used verbatim as the object key.  A blank language skips the block. -/
def recordSelection (stats : Statistics) (language : String) (currentDate : String) : Statistics :=
  if jsTrim language = "" then stats
  else
    let langs0 :=
      if (getVal stats.languages language).isSome then stats.languages
      else stats.languages ++ [(language, ⟨0, []⟩)]
    let langs1 := updVal langs0 language (fun st =>
      let oldCount := (getVal st.dates currentDate).getD 0
      { totalCount := st.totalCount + 1, dates := setVal st.dates currentDate (oldCount + 1) })
    updateFrequencyOrder { stats with languages := langs1 }

/-- Embedding of the `languageChange` handler (latest iteration): record the
selection when the language is non-blank, then unconditionally run
`cleanupExpiredStatistics`. -/
def languageChange (config : Config) (nowMs : Int) (stats : Statistics) (language : String) :
    Statistics :=
  cleanupExpiredStatistics config nowMs
    (recordSelection stats language (getCurrentDateString nowMs))

/-- The search comparator of `languageUpdate` translated to a boolean `≤`
relation (`le a b` iff the JavaScript comparator returns a value `≤ 0`):
start-with matches sort before contains-only matches, among start-with
matches shorter strings sort first, everything else ties. -/
def searchLe (lowerCaseValue : String) (a b : String) : Bool :=
  let aStartsWith := lowerCaseValue.data.isPrefixOf (toLowerAscii a).data
  let bStartsWith := lowerCaseValue.data.isPrefixOf (toLowerAscii b).data
  if aStartsWith && bStartsWith then decide (len16 a ≤ len16 b)
  else if aStartsWith then true
  else if bStartsWith then false
  else true

/-- The candidate pool built by `languageUpdate` when a query is present
(the `matchLanguages` construction before filtering and sorting). -/
def queryPool (config : Config)
    (customOrderLanguages otherCustomLanguages excludedLanguages languages : List String) :
    List String :=
  match config.sortMode with
  | .custom =>
    customOrderLanguages ++
      otherCustomLanguages.filter (fun lang => !customOrderLanguages.contains lang) ++
      languages.filter (fun lang => !customOrderLanguages.contains lang &&
        !otherCustomLanguages.contains lang && !excludedLanguages.contains lang)
  | .frequency =>
    otherCustomLanguages ++
      languages.filter (fun lang =>
        !otherCustomLanguages.contains lang && !excludedLanguages.contains lang)

/-- Embedding of the `languageUpdate` handler (latest iteration).  The three
cached token lists are passed explicitly (in the source they are the
`parseLanguagesInput` results cached from the current configuration);
`languages` is the candidate list delivered by the event and `value` the
live query (`""` when absent).  JavaScript's stable `sort` becomes
`mergeSort`. -/
def languageUpdate (config : Config)
    (customOrderLanguages otherCustomLanguages excludedLanguages : List String)
    (statistics : Statistics) (languages : List String) (value : String) : List String :=
  if value ≠ "" then
    let lowerCaseValue := toLowerAscii value
    ((queryPool config customOrderLanguages otherCustomLanguages excludedLanguages
        languages).filter
      (fun item => containsSub lowerCaseValue.data (toLowerAscii item).data)).mergeSort
      (searchLe lowerCaseValue)
  else
    match config.sortMode with
    | .custom =>
      customOrderLanguages ++
        ((otherCustomLanguages.filter (fun lang => !customOrderLanguages.contains lang) ++
          languages.filter (fun lang => !customOrderLanguages.contains lang &&
            !otherCustomLanguages.contains lang &&
            !excludedLanguages.contains lang)).mergeSort jsLeStr)
    | .frequency =>
      let topFrequencyLanguages := statistics.frequencyOrder.take config.frequencyTopCount
      topFrequencyLanguages ++
        ((otherCustomLanguages.filter (fun lang => !topFrequencyLanguages.contains lang) ++
          languages.filter (fun lang => !topFrequencyLanguages.contains lang &&
            !otherCustomLanguages.contains lang &&
            !excludedLanguages.contains lang)).mergeSort jsLeStr)

example : parseLanguagesInput "" = [] := by decide
example : parseLanguagesInput " js , c++,,`go`" = ["js", "c++", "_go_"] := by decide
example : parseLanguagesInput "a&b,x<y" = ["a&amp;b", "x&lt;y"] := by decide
example : jsLtStr "2020-01-01" "2026-09-11" = true := by decide
example : containsSub "py".data "copy".data = true := by decide
example : containsSub "py".data "corn".data = false := by decide
example : toLowerAscii "PyLint" = "pylint" := by decide
example : toISODateString 1791676800000 = "2026-10-11" := by decide
example : toISODateString (1791676800000 - 30 * 86400000) = "2026-09-11" := by decide
example :
    languageUpdate ⟨.custom, "", 5, 30, "", ""⟩ [] [] [] ⟨[], []⟩
      ["python", "copy", "pylint"] "py" = ["python", "pylint", "copy"] := by
  simp +decide [languageUpdate, queryPool, searchLe, List.mergeSort, toLowerAscii, containsSub,
    len16, jsKey, utf16Units]
example :
    languageUpdate ⟨.custom, "", 5, 30, "", ""⟩ ["foo", "bar"] [] [] ⟨[], []⟩
      ["bar", "baz"] "" = ["foo", "bar", "baz"] := by
  simp +decide [languageUpdate, List.mergeSort]
example :
    languageChange ⟨.frequency, "", 5, 30, "", ""⟩ 1791676800000 ⟨[], []⟩ "a`b" =
      ⟨["a`b"], [("a`b", ⟨1, [("2026-10-11", 1)]⟩)]⟩ := by
  simp +decide [languageChange, recordSelection, cleanupExpiredStatistics, updateFrequencyOrder,
    freqOrderKeys, getVal, updVal, setVal, pruneEntry, sumVals, totalOf, getCurrentDateString,
    cutoffString, List.mergeSort, Statistics.mk.injEq]

/-! ### Helper lemmas about the comparators and association-list operations -/

theorem lexLe_total : ∀ a b : List Nat, (lexLe a b || lexLe b a) = true := by
  intro a
  induction a with
  | nil => intro b; simp [lexLe]
  | cons x xs ih =>
    intro b
    cases b with
    | nil => simp [lexLe]
    | cons y ys =>
      rcases Nat.lt_trichotomy x y with h | h | h
      · simp [lexLe, h]
      · subst h
        simpa [lexLe] using ih ys
      · simp [lexLe, h, Nat.lt_asymm h]

theorem lexLe_trans : ∀ a b c : List Nat,
    lexLe a b = true → lexLe b c = true → lexLe a c = true := by
  intro a
  induction a with
  | nil => intro b c _ _; simp [lexLe]
  | cons x xs ih =>
    intro b c hab hbc
    cases b with
    | nil => simp [lexLe] at hab
    | cons y ys =>
      cases c with
      | nil => simp [lexLe] at hbc
      | cons z zs =>
        simp only [lexLe] at hab hbc ⊢
        by_cases h1 : x < y
        · by_cases h2 : y < z
          · simp [show x < z by omega]
          · by_cases h3 : z < y
            · simp [h2, h3] at hbc
            · have hyz : y = z := by omega
              subst hyz
              simp [h1]
        · by_cases h1' : y < x
          · simp [h1, h1'] at hab
          · have hxy : x = y := by omega
            subst hxy
            by_cases h2 : x < z
            · simp [h2]
            · by_cases h3 : z < x
              · simp [h2, h3] at hbc
              · have hxz : x = z := by omega
                subst hxz
                simp only [show ¬x < x from by omega, if_neg, ite_self] at hab hbc ⊢
                exact ih ys zs hab hbc

theorem jsLeStr_total (a b : String) : (jsLeStr a b || jsLeStr b a) = true :=
  lexLe_total _ _

theorem jsLeStr_trans (a b c : String) :
    jsLeStr a b = true → jsLeStr b c = true → jsLeStr a c = true :=
  lexLe_trans _ _ _

theorem searchLe_total (q a b : String) : (searchLe q a b || searchLe q b a) = true := by
  unfold searchLe
  by_cases ha : q.data.isPrefixOf (toLowerAscii a).data <;>
    by_cases hb : q.data.isPrefixOf (toLowerAscii b).data <;>
    simp [ha, hb, Nat.le_total]

theorem searchLe_trans (q a b c : String) :
    searchLe q a b = true → searchLe q b c = true → searchLe q a c = true := by
  unfold searchLe
  by_cases ha : q.data.isPrefixOf (toLowerAscii a).data <;>
    by_cases hb : q.data.isPrefixOf (toLowerAscii b).data <;>
    by_cases hc : q.data.isPrefixOf (toLowerAscii c).data <;>
    (simp [ha, hb, hc]; try omega)

theorem getVal_setVal {β : Type} (m : List (String × β)) (k : String) (v : β) :
    getVal (setVal m k v) k = some v := by
  induction m with
  | nil => simp [setVal, getVal]
  | cons p rest ih =>
    by_cases h : p.1 = k <;> simp [setVal, getVal, h, ih]

theorem getVal_updVal {β : Type} (m : List (String × β)) (k : String) (f : β → β) :
    getVal (updVal m k f) k = (getVal m k).map f := by
  induction m with
  | nil => simp [updVal, getVal]
  | cons p rest ih =>
    by_cases h : p.1 = k <;> simp [updVal, getVal, h, ih]

theorem getVal_append_single {β : Type} (m : List (String × β)) (k : String) (v : β)
    (h : getVal m k = none) : getVal (m ++ [(k, v)]) k = some v := by
  induction m with
  | nil => simp [getVal]
  | cons p rest ih =>
    by_cases hp : p.1 = k
    · simp [getVal, hp] at h
    · simp [getVal, hp] at h ⊢
      exact ih h

theorem sumVals_setVal (m : List (String × Int)) (k : String) (v : Int) :
    sumVals (setVal m k v) = sumVals m + v - ((getVal m k).getD 0) := by
  induction m with
  | nil => simp [setVal, sumVals, getVal]
  | cons p rest ih =>
    obtain ⟨k', v'⟩ := p
    by_cases h : k' = k
    · simp [setVal, sumVals, getVal, h]
      ring
    · simp only [setVal, sumVals, getVal, h, if_neg, not_false_iff, List.map_cons,
        List.sum_cons] at ih ⊢
      omega

theorem mem_updVal {β : Type} (m : List (String × β)) (k : String) (f : β → β) :
    ∀ p ∈ updVal m k f, p ∈ m ∨ ∃ q, q ∈ m ∧ q.1 = k ∧ p = (q.1, f q.2) := by
  induction m with
  | nil => simp [updVal]
  | cons q rest ih =>
    intro p hp
    by_cases h : q.1 = k
    · simp only [updVal, h, if_pos, List.mem_cons] at hp
      rcases hp with hp | hp
      · right
        refine ⟨q, List.mem_cons_self _ _, h, ?_⟩
        rw [hp, h]
      · left; exact List.mem_cons_of_mem _ hp
    · simp only [updVal, h, if_neg, not_false_iff, List.mem_cons] at hp
      rcases hp with hp | hp
      · left; simp [hp]
      · rcases ih p hp with h' | ⟨q', hq', hk, hpq⟩
        · left; exact List.mem_cons_of_mem _ h'
        · right; exact ⟨q', List.mem_cons_of_mem _ hq', hk, hpq⟩

/-! ### Settings transaction (`tempConfig` edit buffer) -/

/-- The plugin's configuration state: the committed `config` and the edit
buffer `tempConfig` (the draft the settings dialog writes into). -/
structure PluginState where
  config : Config
  tempConfig : Config
deriving DecidableEq, Repr

/-- The writes the settings UI can make into `tempConfig`: one constructor
per input listener in `buildSettingsUI`.  The numeric inputs carry the
`parseInt` result. -/
inductive DraftOp where
  | setSortMode (m : SortMode)
  | inputCustomOrder (s : String)
  | inputFrequencyTopCount (v : Int)
  | inputFrequencyDaysRange (v : Int)
  | inputOtherCustomLanguages (s : String)
  | inputExcludedLanguages (s : String)
deriving DecidableEq, Repr

/-- Embedding of the settings-UI input listeners: every write goes into
`tempConfig` only; the numeric listeners store the value only when it lies
in the documented range (`1..15` resp. `1..90`), otherwise they do
nothing. -/
def applyDraft (st : PluginState) : DraftOp → PluginState
  | .setSortMode m => { st with tempConfig := { st.tempConfig with sortMode := m } }
  | .inputCustomOrder s => { st with tempConfig := { st.tempConfig with customOrder := s } }
  | .inputFrequencyTopCount v =>
    if 1 ≤ v ∧ v ≤ 15 then
      { st with tempConfig := { st.tempConfig with frequencyTopCount := v.toNat } }
    else st
  | .inputFrequencyDaysRange v =>
    if 1 ≤ v ∧ v ≤ 90 then
      { st with tempConfig := { st.tempConfig with frequencyDaysRange := v.toNat } }
    else st
  | .inputOtherCustomLanguages s =>
    { st with tempConfig := { st.tempConfig with otherCustomLanguages := s } }
  | .inputExcludedLanguages s =>
    { st with tempConfig := { st.tempConfig with excludedLanguages := s } }

/-- Embedding of the `Setting` `confirmCallback`: the committed config is
replaced by a copy of the draft, and that same record is handed to
`saveData` (returned as the second component). -/
def confirmCallback (st : PluginState) : PluginState × Config :=
  ({ st with config := st.tempConfig }, st.tempConfig)

/-- Embedding of the `Setting` `destroyCallback`: the draft is reset to a
copy of the committed config. -/
def destroyCallback (st : PluginState) : PluginState :=
  { st with tempConfig := st.config }

/-! ### Claim theorems -/

/-- C2: In Frequency mode with no query, the ordering output begins with the
top `frequencyTopCount` entries of `statistics.frequencyOrder` as a pinned
prefix — for every candidate list `languages`, so in particular
independently of whether the pinned entries occur among the candidates —
and the pinned prefix has exactly `min frequencyTopCount
(length frequencyOrder)` entries: fewer tracked languages than
`frequencyTopCount` pin exactly that smaller number, never blank slots. -/
theorem frequencyMode_pins_top_of_frequencyOrder
    (config : Config) (custom other excluded : List String) (stats : Statistics)
    (languages : List String) (h : config.sortMode = SortMode.frequency) :
    (languageUpdate config custom other excluded stats languages "").take
        (stats.frequencyOrder.take config.frequencyTopCount).length =
      stats.frequencyOrder.take config.frequencyTopCount ∧
    (stats.frequencyOrder.take config.frequencyTopCount).length =
      min config.frequencyTopCount stats.frequencyOrder.length := by
  have he : languageUpdate config custom other excluded stats languages "" =
      stats.frequencyOrder.take config.frequencyTopCount ++
        ((other.filter (fun lang =>
            !(stats.frequencyOrder.take config.frequencyTopCount).contains lang) ++
          languages.filter (fun lang =>
            !(stats.frequencyOrder.take config.frequencyTopCount).contains lang &&
            !other.contains lang && !excluded.contains lang)).mergeSort jsLeStr) := by
    simp [languageUpdate, h]
  rw [he]
  exact ⟨List.take_left _ _, List.length_take _ _⟩

/-- C2 witness: with `frequencyTopCount = 5` and only two tracked languages,
the pinned prefix is exactly the two tracked languages, even though neither
occurs in the candidate list. -/
theorem frequencyMode_pins_top_of_frequencyOrder_witness :
    (languageUpdate ⟨.frequency, "", 5, 30, "", ""⟩ [] [] []
        ⟨["js", "css"], [("js", ⟨2, [("2026-10-10", 2)]⟩), ("css", ⟨1, [("2026-10-10", 1)]⟩)]⟩
        ["python"] "").take 2 = ["js", "css"] ∧ (2 : Nat) = min 5 2 :=
  frequencyMode_pins_top_of_frequencyOrder ⟨.frequency, "", 5, 30, "", ""⟩ [] [] []
    ⟨["js", "css"], [("js", ⟨2, [("2026-10-10", 2)]⟩), ("css", ⟨1, [("2026-10-10", 1)]⟩)]⟩
    ["python"] rfl

/-- C3: In Custom mode with no query, the ordering output starts with
`customOrder` verbatim (every configured token appears, also when absent
from the candidate list) and continues with the stable string-sort (UTF-16
ordinal order, i.e. code-point order on BMP strings) of the
`otherCustomLanguages` tokens not already in `customOrder` together with
the candidates that are in neither configured list and not excluded; that
tail is sorted with respect to the JavaScript string order. -/
theorem customMode_output_structure
    (config : Config) (custom other excluded : List String) (stats : Statistics)
    (languages : List String) (h : config.sortMode = SortMode.custom) :
    (languageUpdate config custom other excluded stats languages "").take custom.length
        = custom ∧
    (∀ t ∈ custom, t ∈ languageUpdate config custom other excluded stats languages "") ∧
    (languageUpdate config custom other excluded stats languages "").drop custom.length =
      ((other.filter (fun lang => !custom.contains lang) ++
        languages.filter (fun lang => !custom.contains lang && !other.contains lang &&
          !excluded.contains lang)).mergeSort jsLeStr) ∧
    ((languageUpdate config custom other excluded stats languages "").drop
        custom.length).Pairwise (fun a b => jsLeStr a b = true) := by
  have he : languageUpdate config custom other excluded stats languages "" =
      custom ++ ((other.filter (fun lang => !custom.contains lang) ++
        languages.filter (fun lang => !custom.contains lang && !other.contains lang &&
          !excluded.contains lang)).mergeSort jsLeStr) := by
    simp [languageUpdate, h]
  rw [he]
  refine ⟨List.take_left _ _, ?_, ?_, ?_⟩
  · intro t ht
    exact List.mem_append_left _ ht
  · exact List.drop_left _ _
  · rw [List.drop_left]
    exact List.sorted_mergeSort (fun a b c => jsLeStr_trans a b c) jsLeStr_total _

/-- C3 witness: `customOrder = ["foo", "bar"]` with candidates
`["bar", "baz"]` yields an output beginning `["foo", "bar"]` although
`"foo"` is not a candidate. -/
theorem customMode_output_structure_witness :
    (languageUpdate ⟨.custom, "foo, bar", 5, 30, "", ""⟩ ["foo", "bar"] [] [] ⟨[], []⟩
        ["bar", "baz"] "").take 2 = ["foo", "bar"] ∧
    "foo" ∈ languageUpdate ⟨.custom, "foo, bar", 5, 30, "", ""⟩ ["foo", "bar"] [] [] ⟨[], []⟩
        ["bar", "baz"] "" := by
  have h := customMode_output_structure ⟨.custom, "foo, bar", 5, 30, "", ""⟩ ["foo", "bar"]
    [] [] ⟨[], []⟩ ["bar", "baz"] rfl
  exact ⟨h.1, h.2.1 "foo" (by simp)⟩

/-- C9: The settings edit buffer is transactional: every UI write changes
only `tempConfig` and leaves the committed `config` untouched; the confirm
callback replaces the committed record wholesale with a copy of the draft
and hands exactly that record to persistence; the destroy (cancel)
callback resets the draft to a copy of the committed record, discarding
all buffered changes. -/
theorem tempConfig_transaction_semantics :
    (∀ (st : PluginState) (op : DraftOp), (applyDraft st op).config = st.config) ∧
    (∀ st : PluginState,
      (confirmCallback st).1.config = st.tempConfig ∧
      (confirmCallback st).2 = st.tempConfig) ∧
    (∀ st : PluginState,
      destroyCallback st = { config := st.config, tempConfig := st.config }) := by
  refine ⟨?_, ?_, ?_⟩
  · intro st op
    cases op <;> simp [applyDraft] <;> split <;> rfl
  · intro st
    exact ⟨rfl, rfl⟩
  · intro st
    rfl

theorem searchLe_spec (q a b : String) (h : searchLe q a b = true) :
    (q.data.isPrefixOf (toLowerAscii b).data = true →
      q.data.isPrefixOf (toLowerAscii a).data = true) ∧
    (q.data.isPrefixOf (toLowerAscii a).data = true →
      q.data.isPrefixOf (toLowerAscii b).data = true → len16 a ≤ len16 b) := by
  unfold searchLe at h
  by_cases ha : q.data.isPrefixOf (toLowerAscii a).data <;>
    by_cases hb : q.data.isPrefixOf (toLowerAscii b).data <;>
    (simp [ha, hb] at h ⊢; try omega)

/-- C4: With a non-empty query `value`, the ordering output consists exactly
of the pool tokens whose lowercase form contains the lowercase query (the
output is a permutation of the filtered pool, and the filtered pool is the
sublist of the pool matched by `includes`); the output is ordered so that
tokens whose lowercase form starts with the query precede tokens that
merely contain it and, among starts-with tokens, shorter (UTF-16 length)
tokens precede longer ones; and the sort is stable: whenever the comparator
does not strictly demote `a` below `b`, an occurrence of `a` before `b` in
the filtered pool survives into the output.  Finally, the spec's ranking
example holds: query "py" over pool ["python", "copy", "pylint"] yields
["python", "pylint", "copy"]. -/
theorem query_filter_and_ranking :
    (∀ (config : Config) (custom other excluded : List String) (stats : Statistics)
      (languages : List String) (value : String), value ≠ "" →
      (languageUpdate config custom other excluded stats languages value).Perm
        ((queryPool config custom other excluded languages).filter
          (fun item => containsSub (toLowerAscii value).data (toLowerAscii item).data)) ∧
      (languageUpdate config custom other excluded stats languages value).Pairwise
        (fun a b =>
          ((toLowerAscii value).data.isPrefixOf (toLowerAscii b).data = true →
            (toLowerAscii value).data.isPrefixOf (toLowerAscii a).data = true) ∧
          ((toLowerAscii value).data.isPrefixOf (toLowerAscii a).data = true →
            (toLowerAscii value).data.isPrefixOf (toLowerAscii b).data = true →
            len16 a ≤ len16 b)) ∧
      (∀ a b : String, searchLe (toLowerAscii value) a b = true →
        [a, b].Sublist ((queryPool config custom other excluded languages).filter
          (fun item => containsSub (toLowerAscii value).data (toLowerAscii item).data)) →
        [a, b].Sublist (languageUpdate config custom other excluded stats languages value))) ∧
    languageUpdate ⟨.custom, "", 5, 30, "", ""⟩ [] [] [] ⟨[], []⟩
      ["python", "copy", "pylint"] "py" = ["python", "pylint", "copy"] := by
  constructor
  · intro config custom other excluded stats languages value hv
    have he : languageUpdate config custom other excluded stats languages value =
        ((queryPool config custom other excluded languages).filter
          (fun item => containsSub (toLowerAscii value).data (toLowerAscii item).data)).mergeSort
          (searchLe (toLowerAscii value)) := by
      simp [languageUpdate, hv]
    rw [he]
    refine ⟨List.mergeSort_perm _ _, ?_, ?_⟩
    · exact (List.sorted_mergeSort
        (fun a b c => searchLe_trans (toLowerAscii value) a b c)
        (searchLe_total (toLowerAscii value)) _).imp
        (fun h => searchLe_spec _ _ _ h)
    · intro a b hab hsub
      exact List.pair_sublist_mergeSort
        (fun a b c => searchLe_trans (toLowerAscii value) a b c)
        (searchLe_total (toLowerAscii value)) hab hsub
  · simp +decide [languageUpdate, queryPool, searchLe, List.mergeSort, toLowerAscii,
      containsSub, len16, jsKey, utf16Units]

/-- C4 witness: the universal part instantiated at the spec's ranking
example (query "py", pool ["python", "copy", "pylint"]). -/
theorem query_filter_and_ranking_witness :
    (languageUpdate ⟨.custom, "", 5, 30, "", ""⟩ [] [] [] ⟨[], []⟩
        ["python", "copy", "pylint"] "py").Perm
      ((queryPool ⟨.custom, "", 5, 30, "", ""⟩ [] [] [] ["python", "copy", "pylint"]).filter
        (fun item => containsSub (toLowerAscii "py").data (toLowerAscii item).data)) :=
  (query_filter_and_ranking.1 ⟨.custom, "", 5, 30, "", ""⟩ [] [] [] ⟨[], []⟩
    ["python", "copy", "pylint"] "py" (by decide)).1

/-- C1 counterexample: a token that is both in `customOrder` and in
`excludedLanguages` does appear in the ordering output (Custom mode, no
query, empty candidate list), so the claim that no excluded token ever
appears in the output is false as stated. -/
theorem excluded_token_in_output_counterexample :
    "foo" ∈ parseLanguagesInput "foo" ∧
    "foo" ∈ languageUpdate ⟨.custom, "foo", 5, 30, "", "foo"⟩
      (parseLanguagesInput "foo") [] (parseLanguagesInput "foo") ⟨[], []⟩ [] "" := by
  constructor
  · decide
  · simp +decide [languageUpdate, parseLanguagesInput, List.mergeSort]

/-- C1 (amended): exclusion is applied to the candidate list only.  A token
of `excludedLanguages` that is not otherwise configured — not in
`customOrder`, not in `otherCustomLanguages` and not among the pinned top
`frequencyTopCount` entries of `frequencyOrder` — never appears in the
ordering output, in both modes and with or without a query. -/
theorem excluded_absent_unless_configured
    (config : Config) (custom other excluded : List String) (stats : Statistics)
    (languages : List String) (value : String) (t : String)
    (hexc : t ∈ excluded) (hc : t ∉ custom) (ho : t ∉ other)
    (hf : t ∉ stats.frequencyOrder.take config.frequencyTopCount) :
    t ∉ languageUpdate config custom other excluded stats languages value := by
  by_cases hv : value = ""
  · subst hv
    cases hm : config.sortMode
    · have he : languageUpdate config custom other excluded stats languages "" =
          custom ++ ((other.filter (fun lang => !custom.contains lang) ++
            languages.filter (fun lang => !custom.contains lang && !other.contains lang &&
              !excluded.contains lang)).mergeSort jsLeStr) := by
        simp [languageUpdate, hm]
      rw [he]
      simp only [List.mem_append, List.mem_mergeSort, List.mem_filter, List.contains,
        List.elem_eq_mem, Bool.not_eq_true', Bool.and_eq_true, decide_eq_false_iff_not,
        not_or]
      tauto
    · have he : languageUpdate config custom other excluded stats languages "" =
          stats.frequencyOrder.take config.frequencyTopCount ++
            ((other.filter (fun lang =>
                !(stats.frequencyOrder.take config.frequencyTopCount).contains lang) ++
              languages.filter (fun lang =>
                !(stats.frequencyOrder.take config.frequencyTopCount).contains lang &&
                !other.contains lang && !excluded.contains lang)).mergeSort jsLeStr) := by
        simp [languageUpdate, hm]
      rw [he]
      simp only [List.mem_append, List.mem_mergeSort, List.mem_filter, List.contains,
        List.elem_eq_mem, Bool.not_eq_true', Bool.and_eq_true, decide_eq_false_iff_not,
        not_or]
      tauto
  · have he : languageUpdate config custom other excluded stats languages value =
        ((queryPool config custom other excluded languages).filter
          (fun item => containsSub (toLowerAscii value).data (toLowerAscii item).data)).mergeSort
          (searchLe (toLowerAscii value)) := by
      simp [languageUpdate, hv]
    rw [he]
    simp only [List.mem_mergeSort, List.mem_filter]
    intro h
    have hpool := h.1
    cases hm : config.sortMode
    · rw [queryPool, hm] at hpool
      simp only [List.mem_append, List.mem_filter, List.contains, List.elem_eq_mem,
        Bool.not_eq_true', Bool.and_eq_true, decide_eq_false_iff_not] at hpool
      tauto
    · rw [queryPool, hm] at hpool
      simp only [List.mem_append, List.mem_filter, List.contains, List.elem_eq_mem,
        Bool.not_eq_true', Bool.and_eq_true, decide_eq_false_iff_not] at hpool
      tauto

/-- C1 witness for the amended claim: the excluded candidate "go" (excluded
and not otherwise configured) is absent from the output. -/
theorem excluded_absent_unless_configured_witness :
    "go" ∉ languageUpdate ⟨.frequency, "", 5, 30, "", "go"⟩ [] [] ["go"]
      ⟨["js"], [("js", ⟨1, [("2026-10-10", 1)]⟩)]⟩ ["go", "js", "rust"] "" :=
  excluded_absent_unless_configured ⟨.frequency, "", 5, 30, "", "go"⟩ [] [] ["go"]
    ⟨["js"], [("js", ⟨1, [("2026-10-10", 1)]⟩)]⟩ ["go", "js", "rust"] "" "go"
    (by decide) (by decide) (by decide) (by decide)

theorem cleanup_languages_eq (config : Config) (nowMs : Int) (stats : Statistics) :
    (cleanupExpiredStatistics config nowMs stats).languages =
      (stats.languages.map (fun p => (p.1, pruneEntry (cutoffString config nowMs) p.2))).filter
        (fun p => decide (p.2.totalCount ≠ 0)) := rfl

theorem mem_cleanup_dates_not_lt (config : Config) (nowMs : Int) (stats : Statistics) :
    ∀ p ∈ (cleanupExpiredStatistics config nowMs stats).languages,
      ∀ q ∈ p.2.dates, jsLtStr q.1 (cutoffString config nowMs) = false := by
  intro p hp q hq
  rw [cleanup_languages_eq] at hp
  obtain ⟨hp', -⟩ := List.mem_filter.mp hp
  obtain ⟨r, -, rfl⟩ := List.mem_map.mp hp'
  simp only [pruneEntry, List.mem_filter, Bool.not_eq_true'] at hq
  exact hq.2

/-- C5 counterexample: with a usage-statistics state whose only per-day
count lies before the retention cutoff for 2026-10-11 (window 30 days), the
ordering operation still pins the stale language: it reads
`frequencyOrder`/`totalCount` without having run `cleanupExpiredStatistics`
in that cycle, and the pruned state would produce a different output.  So
on the ordering request path stale counts do influence the output. -/
theorem stale_stats_influence_ordering_counterexample :
    languageUpdate ⟨.frequency, "", 5, 30, "", ""⟩ [] [] []
        ⟨["old"], [("old", ⟨3, [("2020-01-01", 3)]⟩)]⟩ [] "" = ["old"] ∧
    jsLtStr "2020-01-01" (cutoffString ⟨.frequency, "", 5, 30, "", ""⟩ 1791676800000) = true ∧
    languageUpdate ⟨.frequency, "", 5, 30, "", ""⟩ [] [] []
        (cleanupExpiredStatistics ⟨.frequency, "", 5, 30, "", ""⟩ 1791676800000
          ⟨["old"], [("old", ⟨3, [("2020-01-01", 3)]⟩)]⟩) [] "" = [] := by
  refine ⟨?_, by decide, ?_⟩
  · simp +decide [languageUpdate, List.mergeSort]
  · simp +decide [languageUpdate, cleanupExpiredStatistics, updateFrequencyOrder, freqOrderKeys,
      pruneEntry, cutoffString, sumVals, List.mergeSort]

/-- C5 (amended): expiry pruning runs on the selection path, not on the
ordering path: every `languageChange` ends by running
`cleanupExpiredStatistics`, so the statistics state it leaves behind
carries no per-day entry older than the cutoff of that moment.  The
ordering path (`languageUpdate`) performs no pruning of its own, so counts
from days that expire between the last selection and an ordering request
still influence the ordering output. -/
theorem languageChange_leaves_pruned_state
    (config : Config) (nowMs : Int) (stats : Statistics) (language : String) :
    ∀ p ∈ (languageChange config nowMs stats language).languages,
      ∀ q ∈ p.2.dates, jsLtStr q.1 (cutoffString config nowMs) = false := by
  intro p hp q hq
  exact mem_cleanup_dates_not_lt config nowMs
    (recordSelection stats language (getCurrentDateString nowMs)) p hp q hq

/-- C5 witness: a concrete `languageChange` run after which the surviving
day entry is (provably via the amended theorem) not before the cutoff. -/
theorem languageChange_leaves_pruned_state_witness :
    jsLtStr "2026-10-11" (cutoffString ⟨.frequency, "", 5, 30, "", ""⟩ 1791676800000) = false := by
  have h := languageChange_leaves_pruned_state ⟨.frequency, "", 5, 30, "", ""⟩ 1791676800000
    ⟨[], []⟩ "js"
  refine h ("js", ⟨1, [("2026-10-11", 1)]⟩) ?_ ("2026-10-11", 1) (by simp)
  simp +decide [languageChange, recordSelection, cleanupExpiredStatistics, updateFrequencyOrder,
    freqOrderKeys, getVal, updVal, setVal, pruneEntry, sumVals, getCurrentDateString,
    cutoffString, List.mergeSort]

/-- C6 counterexample: a tab character inside a segment survives
`parseLanguagesInput` unchanged — the implementation replaces only the
space character U+0020 and the backtick, not every whitespace character,
so the claimed output `"a_b"` is not produced. -/
theorem parse_tab_not_replaced_counterexample :
    parseLanguagesInput "a\tb" = ["a\tb"] ∧ isJsWhitespace '\t' = true ∧
      ("a\tb" : String) ≠ "a_b" := by decide

/-- Modelled from the spec (TokenCanonicalizer `parse`), with the
replacement step amended to match the code: split on comma, truncate to
the first 300 segments, trim surrounding whitespace, replace every
remaining space character (U+0020) and every backtick with an underscore,
HTML-escape `&` and `<`, and discard segments that end up empty.  Order is
preserved, duplicates are kept, and empty input yields the empty
sequence. -/
def parseSpecAmended (input : String) : List String :=
  (((splitComma input.data).take 300).map
      (fun seg => escapeHtml (replaceBacktickSpace (jsTrim ⟨seg⟩)))).filter
    (fun lang => decide (lang ≠ ""))

/-- C6 (amended): `parseLanguagesInput` agrees, on every input, with the
spec's canonicalization pipeline amended in one point: only the space
character U+0020 (and the backtick) is replaced by an underscore, other
whitespace characters are left unchanged.  In particular it splits on
commas, truncates to 300 segments, escapes `&` and `<`, drops empty
results, preserves order, does not deduplicate, and maps empty input to
the empty sequence without error. -/
theorem parse_equals_amended_spec (input : String) :
    parseLanguagesInput input = parseSpecAmended input := by
  unfold parseLanguagesInput parseSpecAmended
  by_cases h : input = ""
  · subst h
    decide
  · rw [if_neg h, ← List.map_take, List.map_map]
    refine List.filter_congr ?_
    intro s _
    rcases s with ⟨l⟩
    cases l <;> simp [String.length, String.ext_iff]

/-- C6 witness for the amended theorem: the pipeline on a concrete input
with trimming, space/backtick replacement, escaping, truncation-irrelevant
length, an empty segment, and a duplicate. -/
theorem parse_equals_amended_spec_witness :
    parseLanguagesInput " a b ,`js`,,x<y&z,js ,js" = parseSpecAmended " a b ,`js`,,x<y&z,js ,js" :=
  parse_equals_amended_spec " a b ,`js`,,x<y&z,js ,js"

theorem cleanup_keys_eq (config : Config) (nowMs : Int) (stats : Statistics) :
    (cleanupExpiredStatistics config nowMs stats).languages.map Prod.fst =
      ((stats.languages.filter (fun p => decide (sumVals
        (p.2.dates.filter (fun q => !jsLtStr q.1 (cutoffString config nowMs))) ≠ 0))).map
          Prod.fst) := by
  rw [cleanup_languages_eq]
  induction stats.languages with
  | nil => rfl
  | cons p rest ih =>
    by_cases h : sumVals (p.2.dates.filter (fun q => !jsLtStr q.1 (cutoffString config nowMs))) = 0
    · simpa [pruneEntry, h] using ih
    · simpa [pruneEntry, h] using ih

/-- C7: the state left by `cleanupExpiredStatistics` with window
`frequencyDaysRange`: (a) every surviving per-day entry has a day key not
before the cutoff day; (b) a day entry on or after the cutoff — in
particular on the cutoff day itself — is retained within its language;
(c) each language whose kept entries sum to a nonzero count survives as its
pruned record; (d) each surviving language's `totalCount` is the sum of its
remaining per-day counts and is nonzero, and the surviving keys are exactly
the keys whose kept entries sum to a nonzero count (zero-total languages
are removed entirely); (e) `frequencyOrder` is recomputed once, from the
final pruned `languages` object, so removed languages are absent from it
too. -/
theorem cleanup_pruning_characterization (config : Config) (nowMs : Int) (stats : Statistics) :
    (∀ p ∈ (cleanupExpiredStatistics config nowMs stats).languages,
      (∀ q ∈ p.2.dates, jsLtStr q.1 (cutoffString config nowMs) = false) ∧
      p.2.totalCount = sumVals p.2.dates ∧ p.2.totalCount ≠ 0) ∧
    (∀ p ∈ stats.languages, ∀ q ∈ p.2.dates, jsLtStr q.1 (cutoffString config nowMs) = false →
      q ∈ (pruneEntry (cutoffString config nowMs) p.2).dates) ∧
    (∀ p ∈ stats.languages,
      sumVals (p.2.dates.filter (fun q => !jsLtStr q.1 (cutoffString config nowMs))) ≠ 0 →
      (p.1, pruneEntry (cutoffString config nowMs) p.2) ∈
        (cleanupExpiredStatistics config nowMs stats).languages) ∧
    ((cleanupExpiredStatistics config nowMs stats).languages.map Prod.fst =
      ((stats.languages.filter (fun p => decide (sumVals
        (p.2.dates.filter (fun q => !jsLtStr q.1 (cutoffString config nowMs))) ≠ 0))).map
          Prod.fst)) ∧
    ((cleanupExpiredStatistics config nowMs stats).frequencyOrder =
      freqOrderKeys (cleanupExpiredStatistics config nowMs stats).languages) ∧
    (∀ t, t ∉ (cleanupExpiredStatistics config nowMs stats).languages.map Prod.fst →
      t ∉ (cleanupExpiredStatistics config nowMs stats).frequencyOrder) := by
  refine ⟨?_, ?_, ?_, cleanup_keys_eq config nowMs stats, rfl, ?_⟩
  · intro p hp
    refine ⟨mem_cleanup_dates_not_lt config nowMs stats p hp, ?_, ?_⟩
    · rw [cleanup_languages_eq] at hp
      obtain ⟨hp', -⟩ := List.mem_filter.mp hp
      obtain ⟨r, -, rfl⟩ := List.mem_map.mp hp'
      rfl
    · rw [cleanup_languages_eq] at hp
      obtain ⟨-, hp2⟩ := List.mem_filter.mp hp
      exact of_decide_eq_true hp2
  · intro p _ q hq hok
    simp only [pruneEntry, List.mem_filter, Bool.not_eq_true']
    exact ⟨hq, hok⟩
  · intro p hp hsum
    rw [cleanup_languages_eq]
    refine List.mem_filter.mpr ⟨List.mem_map.mpr ⟨p, hp, rfl⟩, ?_⟩
    simpa [pruneEntry] using hsum
  · intro t ht
    rw [show (cleanupExpiredStatistics config nowMs stats).frequencyOrder =
      freqOrderKeys (cleanupExpiredStatistics config nowMs stats).languages from rfl]
    unfold freqOrderKeys
    rw [List.mem_mergeSort]
    exact ht

/-- C7 witness: window 30 days ending 2026-10-11 (cutoff 2026-09-11); the
language whose only entry is from 2020 is pruned away while a language
with an entry exactly on the cutoff day survives with it. -/
theorem cleanup_pruning_characterization_witness :
    ("b", pruneEntry (cutoffString ⟨.frequency, "", 5, 30, "", ""⟩ 1791676800000)
        ⟨5, [("2026-09-11", 2), ("2026-10-01", 3)]⟩) ∈
      (cleanupExpiredStatistics ⟨.frequency, "", 5, 30, "", ""⟩ 1791676800000
        ⟨["b", "a"], [("a", ⟨3, [("2020-01-01", 3)]⟩),
          ("b", ⟨5, [("2026-09-11", 2), ("2026-10-01", 3)]⟩)]⟩).languages := by
  have h := cleanup_pruning_characterization ⟨.frequency, "", 5, 30, "", ""⟩ 1791676800000
    ⟨["b", "a"], [("a", ⟨3, [("2020-01-01", 3)]⟩),
      ("b", ⟨5, [("2026-09-11", 2), ("2026-10-01", 3)]⟩)]⟩
  exact h.2.2.1 ("b", ⟨5, [("2026-09-11", 2), ("2026-10-01", 3)]⟩) (by simp) (by decide)

/-- The statistics invariant of the spec: every tracked language's
`totalCount` equals the sum of its stored per-day counts. -/
def InvStats (stats : Statistics) : Prop :=
  ∀ p ∈ stats.languages, p.2.totalCount = sumVals p.2.dates

theorem recordSelection_blank (stats : Statistics) (lang d : String)
    (h : jsTrim lang = "") : recordSelection stats lang d = stats := by
  simp [recordSelection, h]

theorem recordSelection_languages (stats : Statistics) (lang d : String)
    (h : ¬jsTrim lang = "") :
    (recordSelection stats lang d).languages =
      updVal
        (if (getVal stats.languages lang).isSome then stats.languages
         else stats.languages ++ [(lang, ⟨0, []⟩)]) lang
        (fun st =>
          ⟨st.totalCount + 1, setVal st.dates d ((getVal st.dates d).getD 0 + 1)⟩) := by
  simp [recordSelection, h, updateFrequencyOrder]

theorem InvStats_recordSelection (stats : Statistics) (lang d : String)
    (h : InvStats stats) : InvStats (recordSelection stats lang d) := by
  by_cases hb : jsTrim lang = ""
  · rw [recordSelection_blank stats lang d hb]
    exact h
  · intro p hp
    rw [recordSelection_languages stats lang d hb] at hp
    have h0 : ∀ q ∈ (if (getVal stats.languages lang).isSome then stats.languages
        else stats.languages ++ [(lang, (⟨0, []⟩ : LanguageStats))]),
        q.2.totalCount = sumVals q.2.dates := by
      intro q hq
      by_cases hs : (getVal stats.languages lang).isSome
      · rw [if_pos hs] at hq
        exact h q hq
      · rw [if_neg hs] at hq
        rcases List.mem_append.mp hq with hq' | hq'
        · exact h q hq'
        · simp only [List.mem_singleton] at hq'
          subst hq'
          simp [sumVals]
    rcases mem_updVal _ _ _ p hp with hp' | ⟨q, hq, -, rfl⟩
    · exact h0 p hp'
    · have hq2 := h0 q hq
      simp only
      rw [sumVals_setVal, ← hq2]
      omega

theorem InvStats_cleanup (config : Config) (nowMs : Int) (stats : Statistics) :
    InvStats (cleanupExpiredStatistics config nowMs stats) := by
  intro p hp
  rw [cleanup_languages_eq] at hp
  obtain ⟨hp', -⟩ := List.mem_filter.mp hp
  obtain ⟨r, -, rfl⟩ := List.mem_map.mp hp'
  rfl

/-- The per-day count of `lang` on day `d` as stored in the statistics
(0 when absent). -/
def dayCountOf (stats : Statistics) (lang d : String) : Int :=
  ((getVal stats.languages lang).map (fun st => (getVal st.dates d).getD 0)).getD 0

/-- C8: every mutation of the usage statistics preserves the invariant
`totalCount = sum of per-day counts`: a blank (or whitespace-only)
language makes the recording step a no-op; recording a non-blank language
increments that language's entry for the given day by 1 (creating it at 1
if absent) and its `totalCount` by 1, and recomputes `frequencyOrder`
from the updated `languages` object; the recording step preserves the
invariant; and pruning recomputes every `totalCount` from the surviving
day entries, so the state after `cleanupExpiredStatistics` — and hence
after every complete `languageChange` — satisfies the invariant
unconditionally. -/
theorem statistics_invariant_preserved :
    (∀ (stats : Statistics) (lang d : String), jsTrim lang = "" →
      recordSelection stats lang d = stats) ∧
    (∀ (stats : Statistics) (lang d : String), jsTrim lang ≠ "" →
      dayCountOf (recordSelection stats lang d) lang d = dayCountOf stats lang d + 1 ∧
      totalOf (recordSelection stats lang d).languages lang =
        totalOf stats.languages lang + 1 ∧
      (recordSelection stats lang d).frequencyOrder =
        freqOrderKeys (recordSelection stats lang d).languages) ∧
    (∀ (stats : Statistics) (lang d : String), InvStats stats →
      InvStats (recordSelection stats lang d)) ∧
    (∀ (config : Config) (nowMs : Int) (stats : Statistics),
      InvStats (cleanupExpiredStatistics config nowMs stats)) ∧
    (∀ (config : Config) (nowMs : Int) (stats : Statistics) (lang : String),
      InvStats (languageChange config nowMs stats lang)) := by
  refine ⟨recordSelection_blank, ?_, InvStats_recordSelection, InvStats_cleanup,
    fun config nowMs stats lang => InvStats_cleanup config nowMs _⟩
  intro stats lang d h
  have hL := recordSelection_languages stats lang d h
  by_cases hs : (getVal stats.languages lang).isSome
  · obtain ⟨st, hst⟩ := Option.isSome_iff_exists.mp hs
    rw [if_pos hs] at hL
    have hget : getVal (recordSelection stats lang d).languages lang =
        some ⟨st.totalCount + 1, setVal st.dates d ((getVal st.dates d).getD 0 + 1)⟩ := by
      rw [hL, getVal_updVal, hst]
      rfl
    refine ⟨?_, ?_, ?_⟩
    · rw [dayCountOf, dayCountOf, hget, hst]
      simp [getVal_setVal]
    · rw [totalOf, totalOf, hget, hst]
      simp
    · simp [recordSelection, h, updateFrequencyOrder]
  · rw [if_neg hs] at hL
    have hnone : getVal stats.languages lang = none := by
      cases hg : getVal stats.languages lang
      · rfl
      · rw [hg] at hs
        simp at hs
    have happ : getVal (stats.languages ++ [(lang, (⟨0, []⟩ : LanguageStats))]) lang =
        some ⟨0, []⟩ := getVal_append_single _ _ _ hnone
    have hget : getVal (recordSelection stats lang d).languages lang =
        some ⟨(0 : Int) + 1, setVal [] d ((getVal ([] : List (String × Int)) d).getD 0 + 1)⟩ := by
      rw [hL, getVal_updVal, happ]
      rfl
    refine ⟨?_, ?_, ?_⟩
    · rw [dayCountOf, dayCountOf, hget, hnone]
      simp [getVal_setVal, getVal]
    · rw [totalOf, totalOf, hget, hnone]
      simp
    · simp [recordSelection, h, updateFrequencyOrder]

/-- C8 witness: recording "py" on 2026-10-11 in the empty statistics state
bumps that day's counter from 0 to 1 (the effects clause applied at a
concrete input). -/
theorem statistics_invariant_preserved_witness :
    dayCountOf (recordSelection ⟨[], []⟩ "py" "2026-10-11") "py" "2026-10-11" =
      dayCountOf ⟨[], []⟩ "py" "2026-10-11" + 1 :=
  (statistics_invariant_preserved.2.1 ⟨[], []⟩ "py" "2026-10-11" (by decide)).1

theorem updVal_keys {β : Type} (m : List (String × β)) (k : String) (f : β → β) :
    (updVal m k f).map Prod.fst = m.map Prod.fst := by
  induction m with
  | nil => rfl
  | cons p rest ih =>
    by_cases h : p.1 = k <;> simp [updVal, h, ih]

theorem mem_keys_of_getVal {β : Type} (m : List (String × β)) (k : String) (v : β)
    (h : getVal m k = some v) : k ∈ m.map Prod.fst := by
  induction m with
  | nil => simp [getVal] at h
  | cons p rest ih =>
    by_cases hp : p.1 = k
    · simp [hp]
    · simp only [getVal, hp, if_neg, not_false_iff] at h
      simp [ih h]

/-- C10: `languageChange` uses the raw selected string verbatim — with no
trimming, no space/backtick replacement, no HTML escaping — as the key of
`statistics.languages`: every non-blank selection puts the raw string
itself among the tracked keys.  Concretely, selecting "a`b" (whose
canonical token form would be "a_b") tracks the raw key "a`b", puts it
into `frequencyOrder`, and the Frequency-mode pinned prefix of the
ordering output then contains this non-canonical string. -/
theorem raw_language_key_no_canonicalization :
    (∀ (stats : Statistics) (lang d : String), jsTrim lang ≠ "" →
      lang ∈ (recordSelection stats lang d).languages.map Prod.fst) ∧
    ((languageChange ⟨.frequency, "", 5, 30, "", ""⟩ 1791676800000 ⟨[], []⟩
        "a`b").languages.map Prod.fst = ["a`b"] ∧
      (languageChange ⟨.frequency, "", 5, 30, "", ""⟩ 1791676800000 ⟨[], []⟩
        "a`b").frequencyOrder = ["a`b"] ∧
      parseLanguagesInput "a`b" = ["a_b"] ∧
      languageUpdate ⟨.frequency, "", 5, 30, "", ""⟩ [] [] []
        (languageChange ⟨.frequency, "", 5, 30, "", ""⟩ 1791676800000 ⟨[], []⟩ "a`b") [] "" =
        ["a`b"]) := by
  constructor
  · intro stats lang d h
    rw [recordSelection_languages stats lang d h, updVal_keys]
    by_cases hs : (getVal stats.languages lang).isSome
    · rw [if_pos hs]
      obtain ⟨v, hv⟩ := Option.isSome_iff_exists.mp hs
      exact mem_keys_of_getVal _ _ _ hv
    · rw [if_neg hs]
      simp
  · refine ⟨?_, ?_, by decide, ?_⟩ <;>
      simp +decide [languageChange, languageUpdate, recordSelection, cleanupExpiredStatistics,
        updateFrequencyOrder, freqOrderKeys, getVal, updVal, setVal, pruneEntry, sumVals,
        totalOf, getCurrentDateString, cutoffString, List.mergeSort]

/-- C10 witness: the universal clause applied to the non-blank raw string
"a`b" on a concrete day. -/
theorem raw_language_key_no_canonicalization_witness :
    "a`b" ∈ (recordSelection ⟨[], []⟩ "a`b" "2026-10-11").languages.map Prod.fst :=
  raw_language_key_no_canonicalization.1 ⟨[], []⟩ "a`b" "2026-10-11" (by decide)
